import Mathlib

/-!
Shallow embedding of lldb's `ModuleList` (src/source/Core/ModuleList.cpp).

A `Module` is an opaque loaded binary image; pointer identity of the C++
`Module*` is embedded as the `id` field (two entries denote the same C++
object exactly when their `id`s agree).  `ModuleSP` (a possibly-null
shared pointer) is `Option Module`.  The registry's backing vector
`m_modules` is a `List Module` (the public mutators never store a null
shared pointer, so list elements are plain `Module`s).

External-collaborator behaviour (per-module query results, the filesystem,
`Symbols::LocateExecutableObjectFile`, the `Module` constructor) is passed
in explicitly as function parameters, since those collaborators live
outside this repository.
-/

namespace ModuleListSpec

/-- One loaded binary image.  `id` embeds C++ pointer identity; the other
fields are the attributes `GetSharedModule` consults (`GetUUID`,
`GetFileSpec`, `GetPlatformFileSpec`, `GetArchitecture`,
`GetModificationTime`, `GetObjectFile() != NULL`).  `none` models an
invalid/absent value. -/
structure Module where
  id : Nat
  uuid : Option Nat
  fileSpec : Option Nat
  platformFileSpec : Option Nat
  arch : Option Nat
  modTime : Option Nat
  hasObjectFile : Bool
deriving DecidableEq

/-- A possibly-null `lldb::ModuleSP`. -/
abbrev ModuleSP := Option Module

/-- The loop of `AppendIfNeeded` / `Remove(ModuleSP)`: scan for an entry
whose raw pointer (`id`) equals the given one. -/
def containsId : List Module → Nat → Bool
  | [], _ => false
  | x :: xs, i => if x.id = i then true else containsId xs i

/-- `ModuleList::Append` (lines 65-73): push the module unless the shared
pointer is null. -/
def append (l : List Module) (m : ModuleSP) : List Module :=
  match m with
  | none => l
  | some m => l ++ [m]

/-- `ModuleList::AppendIfNeeded` (lines 75-92): if non-null, scan by
pointer identity; return false at the first match, otherwise push and
return true. -/
def appendIfNeeded (l : List Module) (m : ModuleSP) : List Module × Bool :=
  match m with
  | none => (l, false)
  | some m => if containsId l m.id then (l, false) else (l ++ [m], true)

/-- The erase-first-match loop of `ModuleList::Remove(ModuleSP)`
(lines 94-111): erase the first entry with the given pointer identity,
reporting whether one was erased. -/
def removeFirst : List Module → Nat → List Module × Bool
  | [], _ => ([], false)
  | x :: xs, i =>
      if x.id = i then (xs, true)
      else
        let r := removeFirst xs i
        (x :: r.1, r.2)

/-- `ModuleList::Remove(ModuleSP)` (lines 94-111): null shared pointer
removes nothing and returns false. -/
def remove (l : List Module) (m : ModuleSP) : List Module × Bool :=
  match m with
  | none => (l, false)
  | some m => removeFirst l m.id

/-- `ModuleList::Remove(ModuleList&)` (lines 135-147): for each entry of
the other registry in order, call `Remove` on the receiver and count the
successful removals. -/
def removeList (l : List Module) : List Module → List Module × Nat
  | [] => (l, 0)
  | m :: rest =>
      let r1 := removeFirst l m.id
      let r2 := removeList r1.1 rest
      (r2.1, if r1.2 then r2.2 + 1 else r2.2)

/-- Number of registry entries with the given pointer identity. -/
def countId (l : List Module) (i : Nat) : Nat :=
  (l.filter (fun m => m.id = i)).length

/-- The scan loop of `ModuleList::RemoveOrphans` (lines 114-133).
`ext i` is the number of owning references to module `i` held outside this
registry, so `pos->unique()` (use count 1) at an entry `m` reads
`ext m.id + countId (kept ++ m :: rest) m.id = 1` where `kept ++ m :: rest`
is the vector's current contents.  Unique entries are erased and counted;
others are kept and the scan advances. -/
def removeOrphansGo (ext : Nat → Nat) : List Module → List Module → List Module × Nat
  | kept, [] => (kept, 0)
  | kept, m :: rest =>
      if ext m.id + countId (kept ++ m :: rest) m.id = 1 then
        let r := removeOrphansGo ext kept rest
        (r.1, r.2 + 1)
      else
        removeOrphansGo ext (kept ++ [m]) rest

/-- `ModuleList::RemoveOrphans` (lines 114-133): scan from the start with
nothing kept yet. -/
def removeOrphans (ext : Nat → Nat) (l : List Module) : List Module × Nat :=
  removeOrphansGo ext [] l

/-- `ModuleList::GetModuleAtIndex` (lines 175-183): bounds-checked read;
out-of-range leaves the result shared pointer empty. -/
def getModuleAtIndex (l : List Module) (idx : Nat) : ModuleSP :=
  if h : idx < l.length then some (l.get ⟨idx, h⟩) else none

/-- `ModuleList::GetModulePointerAtIndex` (lines 166-173): bounds-checked
read returning the raw pointer, NULL when out of range. -/
def getModulePointerAtIndex (l : List Module) (idx : Nat) : ModuleSP :=
  if h : idx < l.length then some (l.get ⟨idx, h⟩) else none

/-! ### Broadcast queries

Each module's delegated query is an external collaborator; `env m` is the
list of results module `m` appends to the caller's result list when asked
(results are opaque, embedded as `Nat`).  Every function returns the final
result list together with the `uint32_t`/`size_t` value the C++ method
returns. -/

/-- `ModuleList::FindFunctions` (lines 185-204): clear unless `ap`, fan
out (each module is passed append=true), return `sc_list.GetSize()`. -/
def findFunctions (env : Module → List Nat) (mods : List Module) (ap : Bool)
    (scList : List Nat) : List Nat × Nat :=
  let l0 := if ap then scList else []
  let lf := mods.foldl (fun acc m => acc ++ env m) l0
  (lf, lf.length)

/-- `ModuleList::FindCompileUnits` (lines 206-222): clear unless `ap`, fan
out, return `sc_list.GetSize()`. -/
def findCompileUnits (env : Module → List Nat) (mods : List Module) (ap : Bool)
    (scList : List Nat) : List Nat × Nat :=
  let l0 := if ap then scList else []
  let lf := mods.foldl (fun acc m => acc ++ env m) l0
  (lf, lf.length)

/-- `ModuleList::FindGlobalVariables` (lines 224-255, both the exact-name
and the regex overload have this shape): record the initial size, fan out
forwarding the caller's `ap` flag to every module (a module clears the
list when given append=false, per the collaborator contract), return
final size minus initial size.  The C++ subtraction is on `size_t`; it is
embedded as truncated `Nat` subtraction, which agrees whenever the final
size is at least the initial one (always the case for `ap = true`). -/
def findGlobalVariables (env : Module → List Nat) (mods : List Module) (ap : Bool)
    (varList : List Nat) : List Nat × Nat :=
  let initialSize := varList.length
  let lf := mods.foldl (fun acc m => (if ap then acc else []) ++ env m) varList
  (lf, lf.length - initialSize)

/-- `ModuleList::FindSymbolsWithNameAndType` (lines 258-273): clear unless
`ap`, record the initial size after clearing, fan out, return final size
minus initial size. -/
def findSymbolsWithNameAndType (env : Module → List Nat) (mods : List Module)
    (ap : Bool) (scList : List Nat) : List Nat × Nat :=
  let l0 := if ap then scList else []
  let initialSize := l0.length
  let lf := mods.foldl (fun acc m => acc ++ env m) l0
  (lf, lf.length - initialSize)

/-- `ModuleList::FindSymbolsMatchingRegExAndType` (lines 275-290): same
shape as `findSymbolsWithNameAndType`. -/
def findSymbolsMatchingRegExAndType (env : Module → List Nat) (mods : List Module)
    (ap : Bool) (scList : List Nat) : List Nat × Nat :=
  let l0 := if ap then scList else []
  let initialSize := l0.length
  let lf := mods.foldl (fun acc m => acc ++ env m) l0
  (lf, lf.length - initialSize)

/-- `ModuleList::ResolveSymbolContextsForFileSpec` (lines 514-525): no
append flag and no clearing; fan out onto the caller's list, return
`sc_list.GetSize()`. -/
def resolveSymbolContextsForFileSpec (env : Module → List Nat) (mods : List Module)
    (scList : List Nat) : List Nat × Nat :=
  let lf := mods.foldl (fun acc m => acc ++ env m) scList
  (lf, lf.length)

/-- Fan-out of a broadcast query starting from an empty list: the results
contributed by this call, in registry order. -/
def fanout (env : Module → List Nat) (mods : List Module) : List Nat :=
  mods.foldl (fun acc m => acc ++ env m) []

/-- The loop of `ModuleList::FindTypes` (lines 354-373).  `aff` is the
identity of `sc.module_sp` (the query's module affinity) or `none`;
`env m maxM` is the result list module `m`'s own `FindTypes` appends when
called with `max_matches = maxM` (its return value is that list's length).
A module is queried when there is no affinity or it is the affinity
module; after each module the loop breaks once the running total has
reached `maxM`. -/
def findTypesGo (env : Module → Nat → List Nat) (aff : Option Nat) (maxM : Nat) :
    List Module → List Nat → Nat → List Nat × Nat
  | [], types, total => (types, total)
  | m :: rest, types, total =>
      let q : Bool := aff.isNone || aff == some m.id
      let types1 := if q then types ++ env m maxM else types
      let total1 := if q then total + (env m maxM).length else total
      if maxM ≤ total1 then (types1, total1)
      else findTypesGo env aff maxM rest types1 total1

/-- `ModuleList::FindTypes` (lines 354-373): clear the type list unless
`ap`, then run the scan with a zero running total. -/
def findTypes (env : Module → Nat → List Nat) (aff : Option Nat) (maxM : Nat)
    (mods : List Module) (ap : Bool) (types : List Nat) : List Nat × Nat :=
  findTypesGo env aff maxM mods (if ap then types else []) 0

/-! ### The shared-module cache population algorithm (`GetSharedModule`) -/

/-- A `ModuleSpec` as consulted by `GetSharedModule`: optional UUID,
optional file path, optional platform path, optional architecture
(`none` models an invalid/absent field). -/
structure ModuleSpec where
  uuid : Option Nat
  fileSpec : Option Nat
  platformFileSpec : Option Nat
  arch : Option Nat
deriving DecidableEq

/-- The attributes the external `Module` constructor gives a module built
from a spec: its UUID, architecture and modification time as read from the
object file, and whether `GetObjectFile()` yields a usable object file. -/
structure ModAttrs where
  uuid : Option Nat
  arch : Option Nat
  modTime : Option Nat
  hasObjectFile : Bool

/-- The external collaborators `GetSharedModule` calls out to:
`construct` is the `Module` constructor's observable outcome,
`locate` is `Symbols::LocateExecutableObjectFile` (`none` = invalid
FileSpec), `fsExists` is `FileSpec::Exists`, and `fsModTime` is
`FileSpec::GetModificationTime` (`none` = invalid time). -/
structure Env where
  construct : ModuleSpec → ModAttrs
  locate : ModuleSpec → Option Nat
  fsExists : Nat → Bool
  fsModTime : Nat → Option Nat

/-- `FileSpec::Exists` on a possibly-invalid FileSpec: an invalid spec
exists nowhere. -/
def fsExistsOpt (env : Env) : Option Nat → Bool
  | none => false
  | some p => env.fsExists p

/-- Modelled from the spec: `Module::MatchesModuleSpec` is code of this
repository that is not under src/ (only its caller `FindModules` is).
Per §4.3: "if the spec carries a unique identifier, match on identifier
equality alone; otherwise match on (path equality AND architecture
compatibility)", where an absent spec field constrains nothing. -/
def matchesModuleSpec (m : Module) (spec : ModuleSpec) : Bool :=
  match spec.uuid with
  | some u => m.uuid == some u
  | none =>
      (match spec.fileSpec with
       | some p => m.fileSpec == some p
       | none => true)
      && (match spec.arch with
          | some a => m.arch == some a
          | none => true)

/-- `ModuleList::FindModules` (lines 292-306): append every matching
entry, in order, to the output list (embedded as returning the matches). -/
def findModules (l : List Module) (spec : ModuleSpec) : List Module :=
  l.filter (fun m => matchesModuleSpec m spec)

/-- The mutable state of the candidate scan in `GetSharedModule`
(lines 607-636): the shared cache's contents, the `old_module_sp_ptr`
output slot, and the working `module_sp`. -/
structure ScanState where
  cache : List Module
  oldModule : ModuleSP
  moduleSp : ModuleSP
deriving DecidableEq

/-- The candidate loop of `GetSharedModule` (lines 613-634), iterated over
the snapshot of matching modules.  Each iteration sets `module_sp` to the
candidate; with a UUID in the spec the loop breaks at once; else a valid
spec-path modification time equal to the candidate's returns at once;
otherwise the candidate is stale: the old-module slot is filled if still
empty, the candidate is removed from the cache, `module_sp` is reset and
the scan continues. -/
def scanLoop (env : Env) (spec : ModuleSpec) : List Module → ScanState → ScanState
  | [], st => st
  | c :: rest, st =>
      if spec.uuid.isSome then { st with moduleSp := some c }
      else
        let fresh : Bool :=
          match spec.fileSpec with
          | some p =>
              match env.fsModTime p with
              | some t => c.modTime == some t
              | none => false
          | none => false
        if fresh then { st with moduleSp := some c }
        else
          scanLoop env spec rest
            { cache := (removeFirst st.cache c.id).1,
              oldModule := match st.oldModule with
                           | none => some c
                           | some o => some o,
              moduleSp := none }

/-- Outcome of one `GetSharedModule` call: the returned `module_sp`, the
`old_module_sp_ptr` output, the `did_create_ptr` output, and whether the
returned `Error` is a success. -/
structure GSMResult where
  module : ModuleSP
  oldModule : ModuleSP
  didCreate : Bool
  success : Bool
deriving DecidableEq

/-- `new Module(spec)`: a fresh identity `nid`; the file-spec fields come
from the spec, the remaining attributes from the external constructor. -/
def newModuleFrom (env : Env) (spec : ModuleSpec) (nid : Nat) : Module :=
  let a := env.construct spec
  ⟨nid, a.uuid, spec.fileSpec, spec.platformFileSpec, a.arch, a.modTime, a.hasObjectFile⟩

/-- The construct-from-resolved-path step of the fallback (lines 740-777):
build a module from the platform spec; with an object file mark created
and append, else report a descriptive error. -/
def gsmFallbackCreate (env : Env) (pspec : ModuleSpec) (cache : List Module)
    (old : ModuleSP) (nid : Nat) : GSMResult × List Module × Nat :=
  let m2 := newModuleFrom env pspec nid
  if m2.hasObjectFile then (⟨some m2, old, true, true⟩, cache ++ [m2], nid + 1)
  else (⟨none, old, false, false⟩, cache, nid + 1)

/-- The fallback of `GetSharedModule` (lines 667-781): locate the file
externally; if the located path equals the original one, return success
with no module; if it does not exist, fail; otherwise search the cache
with the rewritten spec, retire a stale first match (here the old-module
slot is overwritten unconditionally, lines 731-732), and return the
cached module or construct a new one. -/
def gsmFallback (env : Env) (spec : ModuleSpec) (cache : List Module)
    (old : ModuleSP) (nid : Nat) : GSMResult × List Module × Nat :=
  let fs := env.locate spec
  if fs == spec.fileSpec then (⟨none, old, false, true⟩, cache, nid)
  else if ¬ fsExistsOpt env fs then (⟨none, old, false, false⟩, cache, nid)
  else
    let pspec : ModuleSpec := { spec with fileSpec := fs, platformFileSpec := fs }
    match findModules cache pspec with
    | [] => gsmFallbackCreate env pspec cache old nid
    | c :: _ =>
        match pspec.uuid with
        | some _ => (⟨some c, old, false, true⟩, cache, nid)
        | none =>
            match fs with
            | some p =>
                match env.fsModTime p with
                | some t =>
                    if c.modTime == some t then (⟨some c, old, false, true⟩, cache, nid)
                    else gsmFallbackCreate env pspec (removeFirst cache c.id).1 (some c) nid
                | none => (⟨some c, old, false, true⟩, cache, nid)
            | none => (⟨some c, old, false, true⟩, cache, nid)

/-- The tail of `GetSharedModule` from line 638 on, given the scan's
final state: return a surviving candidate (`if (module_sp) return
error;`), else construct directly from the spec — discarding a UUID
mismatch (lines 652-653) or a missing object file (line 664) into the
fallback — marking created and appending on success (lines 656-660). -/
def gsmAfterScan (env : Env) (spec : ModuleSpec) (nid : Nat)
    (st1 : ScanState) : GSMResult × List Module × Nat :=
  match st1.moduleSp with
  | some m => (⟨some m, st1.oldModule, false, true⟩, st1.cache, nid)
  | none =>
      let m1 := newModuleFrom env spec nid
      let nid1 := nid + 1
      if m1.hasObjectFile then
        match spec.uuid with
        | some u =>
            if m1.uuid == some u then
              (⟨some m1, st1.oldModule, true, true⟩, st1.cache ++ [m1], nid1)
            else gsmFallback env spec st1.cache st1.oldModule nid1
        | none => (⟨some m1, st1.oldModule, true, true⟩, st1.cache ++ [m1], nid1)
      else gsmFallback env spec st1.cache st1.oldModule nid1

/-- `ModuleList::GetSharedModule` (lines 575-781) over the shared cache
`cache` with allocation counter `nid`: reset the outputs, scan matching
candidates unless `alwaysCreate`, then run the post-scan tail. -/
def getSharedModule (env : Env) (cache : List Module) (nid : Nat)
    (spec : ModuleSpec) (alwaysCreate : Bool) : GSMResult × List Module × Nat :=
  let st0 : ScanState := ⟨cache, none, none⟩
  let st1 := if alwaysCreate then st0 else scanLoop env spec (findModules cache spec) st0
  gsmAfterScan env spec nid st1

/-! ### Operation sequences -/

/-- Calling `AppendIfNeeded` with the same module reference `n` times in a
row, collecting the returned booleans. -/
def iterAppendIfNeeded (l : List Module) (m : Module) : Nat → List Module × List Bool
  | 0 => (l, [])
  | n + 1 =>
      let r := appendIfNeeded l (some m)
      let rr := iterAppendIfNeeded r.1 m n
      (rr.1, r.2 :: rr.2)

/-- A single-threaded registry operation: `Append(module_sp)` or
`Remove(module_sp)`. -/
inductive RegOp where
  | app (m : ModuleSP)
  | rem (m : ModuleSP)
deriving DecidableEq

/-- Run a sequence of `Append`/`Remove` calls, returning the final
registry contents and the number of `Remove` calls that returned true. -/
def runOps : List Module → List RegOp → List Module × Nat
  | l, [] => (l, 0)
  | l, RegOp.app m :: ops => runOps (append l m) ops
  | l, RegOp.rem m :: ops =>
      let r := remove l m
      let rr := runOps r.1 ops
      (rr.1, if r.2 then rr.2 + 1 else rr.2)

/-- Number of `Append` calls in a sequence. -/
def countAppendOps : List RegOp → Nat
  | [] => 0
  | RegOp.app _ :: ops => countAppendOps ops + 1
  | RegOp.rem _ :: ops => countAppendOps ops

/-- Number of `Append` calls whose argument is non-null. -/
def countNonNullAppendOps : List RegOp → Nat
  | [] => 0
  | RegOp.app (some _) :: ops => countNonNullAppendOps ops + 1
  | RegOp.app none :: ops => countNonNullAppendOps ops
  | RegOp.rem _ :: ops => countNonNullAppendOps ops

/-! ### Concrete modules used in witnesses and counterexamples -/

/-- A concrete module with pointer identity 5. -/
def mA : Module := ⟨5, none, none, none, none, none, false⟩

/-- A concrete module with pointer identity 6. -/
def mB : Module := ⟨6, none, none, none, none, none, false⟩

/-! ### Helper lemmas on the registry primitives -/

theorem containsId_append_self (l : List Module) (m : Module) :
    containsId (l ++ [m]) m.id = true := by
  induction l with
  | nil => simp [containsId]
  | cons x xs ih => simp only [List.cons_append, containsId]; split <;> simp [ih]

theorem appendIfNeeded_of_contains {l : List Module} {m : Module}
    (h : containsId l m.id = true) : appendIfNeeded l (some m) = (l, false) := by
  simp [appendIfNeeded, h]

theorem iterAppendIfNeeded_of_contains {l : List Module} {m : Module}
    (h : containsId l m.id = true) (n : Nat) :
    iterAppendIfNeeded l m n = (l, List.replicate n false) := by
  induction n with
  | zero => simp [iterAppendIfNeeded]
  | succ k ih => simp [iterAppendIfNeeded, appendIfNeeded_of_contains h, ih, List.replicate]

theorem removeFirst_length (l : List Module) (i : Nat) :
    (removeFirst l i).1.length + (if (removeFirst l i).2 then 1 else 0) = l.length := by
  induction l with
  | nil => simp [removeFirst]
  | cons x xs ih =>
      simp only [removeFirst]
      split
      · simp
      · simp only [List.length_cons]
        omega

/-! ### C2 -/

/-- C2 (amended): repeating `AppendIfNeeded(M)` N ≥ 1 times on a registry
that does not already contain M appends M once, returning true on the
first call and false on the remaining N−1; on a registry already
containing M every call returns false and the contents are unchanged. -/
theorem appendIfNeeded_idempotent (l : List Module) (m : Module) (n : Nat) :
    (containsId l m.id = false →
      (iterAppendIfNeeded l m (n + 1)).1 = l ++ [m] ∧
      (iterAppendIfNeeded l m (n + 1)).1.length = l.length + 1 ∧
      (iterAppendIfNeeded l m (n + 1)).2 = true :: List.replicate n false) ∧
    (containsId l m.id = true →
      iterAppendIfNeeded l m n = (l, List.replicate n false)) := by
  constructor
  · intro h
    have h1 : appendIfNeeded l (some m) = (l ++ [m], true) := by
      simp [appendIfNeeded, h]
    have h2 : iterAppendIfNeeded (l ++ [m]) m n = (l ++ [m], List.replicate n false) :=
      iterAppendIfNeeded_of_contains (containsId_append_self l m) n
    simp [iterAppendIfNeeded, h1, h2]
  · intro h
    exact iterAppendIfNeeded_of_contains h n

/-- Witness for C2: a fresh registry, two calls. -/
theorem appendIfNeeded_idempotent_witness :
    (iterAppendIfNeeded [] mA 2).1 = [] ++ [mA] ∧
    (iterAppendIfNeeded [] mA 2).1.length = ([] : List Module).length + 1 ∧
    (iterAppendIfNeeded [] mA 2).2 = true :: List.replicate 1 false :=
  (appendIfNeeded_idempotent [] mA 1).1 (by decide)

/-- Counterexample for C2 as stated: on a registry already containing M
(a state the claim quantifies over), a single `AppendIfNeeded(M)` call
returns false — not true on the first call — and the length stays 1
instead of increasing by 1. -/
theorem appendIfNeeded_already_present_cex :
    iterAppendIfNeeded [mA] mA 1 = ([mA], [false]) ∧
    (iterAppendIfNeeded [mA] mA 1).1.length ≠ [mA].length + 1 := by decide

/-! ### C6 -/

/-- C6 (amended): across any single-threaded `Append`/`Remove` sequence,
final length plus successful removals equals initial length plus the
number of `Append` calls with a non-null argument (an `Append` of a null
shared pointer is a no-op and adds nothing). -/
theorem runOps_length_invariant (l : List Module) (ops : List RegOp) :
    (runOps l ops).1.length + (runOps l ops).2 = l.length + countNonNullAppendOps ops := by
  induction ops generalizing l with
  | nil => simp [runOps, countNonNullAppendOps]
  | cons op rest ih =>
      cases op with
      | app m =>
          cases m with
          | none => simpa [runOps, append, countNonNullAppendOps] using ih l
          | some m =>
              have := ih (l ++ [m])
              simp only [runOps, append, countNonNullAppendOps] at *
              simp [this]
              omega
      | rem m =>
          cases m with
          | none =>
              simpa [runOps, remove, countNonNullAppendOps] using ih l
          | some m =>
              have h1 := removeFirst_length l m.id
              have h2 := ih (removeFirst l m.id).1
              simp only [runOps, remove, countNonNullAppendOps]
              split <;> rename_i hb <;> simp [hb] at h1 <;> omega

/-- Counterexample for C6 as stated: a single `Append` of a null module
reference counts as an Append call but leaves the registry empty, so the
length does not equal initial + Appends − successful Removes. -/
theorem runOps_null_append_cex :
    ¬ ((runOps [] [RegOp.app none]).1.length =
        ([] : List Module).length + countAppendOps [RegOp.app none] -
          (runOps [] [RegOp.app none]).2) := by decide

/-! ### C9 -/

/-- C9: `GetModuleAtIndex` and `GetModulePointerAtIndex` return the entry
at position idx when idx is in range, and an empty shared reference /
null pointer when it is not; both are total functions. -/
theorem getModuleAtIndex_bounds (l : List Module) (idx : Nat) :
    (∀ h : idx < l.length,
        getModuleAtIndex l idx = some (l.get ⟨idx, h⟩) ∧
        getModulePointerAtIndex l idx = some (l.get ⟨idx, h⟩)) ∧
    (l.length ≤ idx →
        getModuleAtIndex l idx = none ∧ getModulePointerAtIndex l idx = none) := by
  constructor
  · intro h
    exact ⟨dif_pos h, dif_pos h⟩
  · intro h
    have h' : ¬ idx < l.length := by omega
    exact ⟨dif_neg h', dif_neg h'⟩

/-- Witness for C9: a one-entry registry probed in range and out of range. -/
theorem getModuleAtIndex_bounds_witness :
    (getModuleAtIndex [mA] 0 = some mA ∧ getModulePointerAtIndex [mA] 0 = some mA) ∧
    (getModuleAtIndex [mA] 3 = none ∧ getModulePointerAtIndex [mA] 3 = none) :=
  ⟨(getModuleAtIndex_bounds [mA] 0).1 (by decide),
   (getModuleAtIndex_bounds [mA] 3).2 (by decide)⟩

/-! ### C10 -/

/-- C10: `AppendIfNeeded` and `Remove` called with a null module
reference return false and leave the registry unchanged. -/
theorem null_module_noop (l : List Module) :
    appendIfNeeded l none = (l, false) ∧ remove l none = (l, false) :=
  ⟨rfl, rfl⟩

/-! ### C1 -/

theorem foldl_append_eq_fanout (env : Module → List Nat) (mods : List Module)
    (l0 : List Nat) :
    mods.foldl (fun acc m => acc ++ env m) l0 = l0 ++ fanout env mods := by
  induction mods generalizing l0 with
  | nil => simp [fanout]
  | cons m rest ih =>
      have h1 : fanout env (m :: rest) = env m ++ fanout env rest := by
        simp only [fanout, List.foldl_cons, List.nil_append]
        exact ih (env m)
      simp only [List.foldl_cons]
      rw [ih (l0 ++ env m), h1, List.append_assoc]

/-- C1 (amended): with a caller-supplied result list and append=true,
`FindGlobalVariables`, `FindSymbolsWithNameAndType` and
`FindSymbolsMatchingRegExAndType` return the number of results this call
added, while `FindFunctions`, `FindCompileUnits` and
`ResolveSymbolContextsForFileSpec` (which has no append flag and never
clears) return the total size of the result list after the call — the two
coincide only when the list starts out empty. -/
theorem broadcast_query_return_values (env : Module → List Nat) (mods : List Module)
    (l : List Nat) :
    ((findFunctions env mods true l).1 = l ++ fanout env mods ∧
      (findFunctions env mods true l).2 = l.length + (fanout env mods).length) ∧
    ((findCompileUnits env mods true l).1 = l ++ fanout env mods ∧
      (findCompileUnits env mods true l).2 = l.length + (fanout env mods).length) ∧
    ((resolveSymbolContextsForFileSpec env mods l).1 = l ++ fanout env mods ∧
      (resolveSymbolContextsForFileSpec env mods l).2 = l.length + (fanout env mods).length) ∧
    ((findGlobalVariables env mods true l).1 = l ++ fanout env mods ∧
      (findGlobalVariables env mods true l).2 = (fanout env mods).length) ∧
    ((findSymbolsWithNameAndType env mods true l).1 = l ++ fanout env mods ∧
      (findSymbolsWithNameAndType env mods true l).2 = (fanout env mods).length) ∧
    ((findSymbolsMatchingRegExAndType env mods true l).1 = l ++ fanout env mods ∧
      (findSymbolsMatchingRegExAndType env mods true l).2 = (fanout env mods).length) := by
  refine ⟨⟨?_, ?_⟩, ⟨?_, ?_⟩, ⟨?_, ?_⟩, ⟨?_, ?_⟩, ⟨?_, ?_⟩, ⟨?_, ?_⟩⟩ <;>
    simp [findFunctions, findCompileUnits, resolveSymbolContextsForFileSpec,
      findGlobalVariables, findSymbolsWithNameAndType, findSymbolsMatchingRegExAndType,
      foldl_append_eq_fanout]

/-- Counterexample for C1 as stated: `FindFunctions` on an empty registry
with append=true and a one-entry caller list adds nothing, yet returns 1
(the total size of the list), not the 0 results added by the call. -/
theorem findFunctions_returns_total_cex :
    (findFunctions (fun _ => ([] : List Nat)) ([] : List Module) true [9]).1 = [9] ∧
    (findFunctions (fun _ => ([] : List Nat)) ([] : List Module) true [9]).2 ≠
      (findFunctions (fun _ => ([] : List Nat)) ([] : List Module) true [9]).1.length -
        [9].length := by decide

/-! ### C3 -/

theorem countId_cons (x : Module) (xs : List Module) (i : Nat) :
    countId (x :: xs) i = (if x.id = i then 1 else 0) + countId xs i := by
  by_cases h : x.id = i
  · simp only [countId, List.filter_cons, h]
    simp
    omega
  · simp [countId, List.filter_cons, h]

theorem countId_append (a b : List Module) (i : Nat) :
    countId (a ++ b) i = countId a i + countId b i := by
  simp [countId, List.filter_append]

theorem countId_singleton (m : Module) (i : Nat) :
    countId [m] i = if m.id = i then 1 else 0 := by
  by_cases h : m.id = i <;> simp [countId, h]

theorem countId_nil (i : Nat) : countId [] i = 0 := rfl

theorem countId_append_cons (kept rest : List Module) (m : Module) (i : Nat) :
    countId ((kept ++ [m]) ++ rest) i = countId (kept ++ m :: rest) i := by
  simp only [countId_append, countId_cons, countId_singleton, countId_nil]
  omega

theorem countId_cons_self_ne_zero (kept rest : List Module) (m : Module) :
    countId (kept ++ m :: rest) m.id ≠ 0 := by
  rw [countId_append, countId_cons]
  simp

theorem removeOrphansGo_characterization (ext : Nat → Nat) (orig : List Module) :
    ∀ rest kept,
      (∀ i, countId (kept ++ rest) i ≠ 0 → countId (kept ++ rest) i = countId orig i) →
      removeOrphansGo ext kept rest =
        (kept ++ rest.filter (fun m => ¬ (ext m.id = 0 ∧ countId orig m.id = 1)),
         (rest.filter (fun m => ext m.id = 0 ∧ countId orig m.id = 1)).length) := by
  intro rest
  induction rest with
  | nil => intro kept _; simp [removeOrphansGo]
  | cons m rest' ih =>
      intro kept H
      have hcount : countId (kept ++ m :: rest') m.id = countId orig m.id :=
        H m.id (countId_cons_self_ne_zero kept rest' m)
      have hpos : 0 < countId (kept ++ m :: rest') m.id := by
        have := countId_cons_self_ne_zero kept rest' m
        omega
      have hcond : (ext m.id + countId (kept ++ m :: rest') m.id = 1) ↔
          (ext m.id = 0 ∧ countId orig m.id = 1) := by
        rw [hcount] at hpos ⊢
        omega
      simp only [removeOrphansGo]
      split <;> rename_i hc
      · -- the entry is unique: it is erased and counted
        have hP : ext m.id = 0 ∧ countId orig m.id = 1 := hcond.mp hc
        have H' : ∀ i, countId (kept ++ rest') i ≠ 0 →
            countId (kept ++ rest') i = countId orig i := by
          intro i hi
          by_cases him : i = m.id
          · exfalso
            have hmi : m.id = i := him.symm
            have h1 : countId (kept ++ m :: rest') i =
                countId kept i + (1 + countId rest' i) := by
              rw [countId_append, countId_cons]
              simp [hmi]
            have h2 : countId (kept ++ rest') i = countId kept i + countId rest' i :=
              countId_append kept rest' i
            have h3 : countId (kept ++ m :: rest') i = countId orig i := by
              apply H
              omega
            have h4 : countId orig i = 1 := hmi ▸ hP.2
            omega
          · have h1 : countId (kept ++ m :: rest') i = countId kept i + countId rest' i := by
              rw [countId_append, countId_cons]
              have hne : ¬ m.id = i := fun h => him h.symm
              simp [hne]
            have h2 : countId (kept ++ rest') i = countId kept i + countId rest' i :=
              countId_append kept rest' i
            rw [h2, ← h1]
            apply H
            omega
        have hrec := ih kept H'
        rw [hrec]
        have hfilter :
            (m :: rest').filter (fun m => ¬ (ext m.id = 0 ∧ countId orig m.id = 1)) =
              rest'.filter (fun m => ¬ (ext m.id = 0 ∧ countId orig m.id = 1)) := by
          simp [List.filter_cons, hP.1, hP.2]
        have hfilter2 :
            (m :: rest').filter (fun m => ext m.id = 0 ∧ countId orig m.id = 1) =
              m :: rest'.filter (fun m => ext m.id = 0 ∧ countId orig m.id = 1) := by
          simp [List.filter_cons, hP.1, hP.2]
        rw [hfilter, hfilter2]
        simp
      · -- the entry is not unique: kept, scan advances
        have hP : ¬ (ext m.id = 0 ∧ countId orig m.id = 1) := fun h => hc (hcond.mpr h)
        have H' : ∀ i, countId ((kept ++ [m]) ++ rest') i ≠ 0 →
            countId ((kept ++ [m]) ++ rest') i = countId orig i := by
          intro i hi
          rw [countId_append_cons] at hi ⊢
          exact H i hi
        have hrec := ih (kept ++ [m]) H'
        rw [hrec]
        have hfilter :
            (m :: rest').filter (fun m => ¬ (ext m.id = 0 ∧ countId orig m.id = 1)) =
              m :: rest'.filter (fun m => ¬ (ext m.id = 0 ∧ countId orig m.id = 1)) := by
          rw [List.filter_cons]
          simp [hP]
        have hfilter2 :
            (m :: rest').filter (fun m => ext m.id = 0 ∧ countId orig m.id = 1) =
              rest'.filter (fun m => ext m.id = 0 ∧ countId orig m.id = 1) := by
          rw [List.filter_cons]
          simp [hP]
        rw [hfilter, hfilter2]
        simp

/-- C3 (amended): `RemoveOrphans` removes exactly those entries whose
shared reference is the unique owner of its module — no owning reference
outside the registry and no duplicate entry of the same module inside it —
leaves every other entry untouched, and returns the number removed.  An
entry duplicated within the registry is never removed, even when nothing
outside the registry references it. -/
theorem removeOrphans_characterization (ext : Nat → Nat) (l : List Module) :
    removeOrphans ext l =
      (l.filter (fun m => ¬ (ext m.id = 0 ∧ countId l m.id = 1)),
       (l.filter (fun m => ext m.id = 0 ∧ countId l m.id = 1)).length) := by
  have h := removeOrphansGo_characterization ext l l []
  simp only [List.nil_append] at h
  exact h (fun _ _ => trivial)

/-- Counterexample for C3 as stated: a registry holding the same module
twice with zero outside holders.  The registry holds all remaining owning
references, yet `RemoveOrphans` removes neither entry and returns 0,
where the claim demands both entries removed and a return of 2. -/
theorem removeOrphans_duplicate_cex :
    removeOrphans (fun _ => 0) [mA, mA] = ([mA, mA], 0) ∧
    removeOrphans (fun _ => 0) [mA, mA] ≠ ([], 2) := by decide

/-! ### C7 -/

theorem countId_eq_zero {l : List Module} {i : Nat} :
    countId l i = 0 ↔ ∀ m ∈ l, ¬ m.id = i := by
  simp [countId, List.length_eq_zero, List.filter_eq_nil_iff]

theorem pairwise_countId_le_one {l : List Module}
    (h : l.Pairwise (fun a b => a.id ≠ b.id)) : ∀ i, countId l i ≤ 1 := by
  induction l with
  | nil => intro i; simp [countId_nil]
  | cons x xs ih =>
      intro i
      rcases List.pairwise_cons.mp h with ⟨hx, hxs⟩
      rw [countId_cons]
      by_cases hxi : x.id = i
      · have h0 : countId xs i = 0 := by
          apply countId_eq_zero.mpr
          intro m hm hmi
          exact hx m hm (hxi.trans hmi.symm)
        simp [hxi, h0]
      · have := ih hxs i
        simp [hxi]
        omega

theorem removeFirst_eq_filter {l : List Module} {i : Nat} (h : countId l i ≤ 1) :
    (removeFirst l i).1 = l.filter (fun m => ¬ m.id = i) ∧
    (removeFirst l i).2 = containsId l i := by
  induction l with
  | nil => simp [removeFirst, containsId]
  | cons x xs ih =>
      rw [countId_cons] at h
      by_cases hx : x.id = i
      · have h0 : countId xs i = 0 := by
          simp [hx] at h
          omega
        have hxs : List.filter (fun m => !decide (m.id = i)) xs = xs := by
          apply List.filter_eq_self.mpr
          intro m hm
          have := countId_eq_zero.mp h0 m hm
          simp [this]
        simp [removeFirst, containsId, hx, List.filter_cons, hxs]
      · have h' : countId xs i ≤ 1 := by
          simp [hx] at h
          omega
        have := ih h'
        simp [removeFirst, containsId, hx, List.filter_cons, this.1, this.2]

theorem countId_filter_le (p : Module → Bool) (l : List Module) (i : Nat) :
    countId (l.filter p) i ≤ countId l i := by
  induction l with
  | nil => simp [countId_nil]
  | cons x xs ih =>
      rw [List.filter_cons]
      split
      · rw [countId_cons, countId_cons]
        omega
      · rw [countId_cons]
        omega

theorem removeList_length (s : List Module) : ∀ l : List Module,
    (removeList l s).1.length + (removeList l s).2 = l.length := by
  induction s with
  | nil => intro l; simp [removeList]
  | cons a rest ih =>
      intro l
      have h1 := removeFirst_length l a.id
      have h2 := ih (removeFirst l a.id).1
      simp only [removeList]
      split at h1 <;> rename_i hb <;> simp [hb] at h1 ⊢ <;> omega

theorem removeList_keep (s : List Module) : ∀ l : List Module,
    (∀ i, countId l i ≤ 1) →
    (removeList l s).1 = l.filter (fun m => containsId s m.id = false) := by
  induction s with
  | nil =>
      intro l _
      simp [removeList, containsId]
  | cons a rest ih =>
      intro l h
      have hrf := removeFirst_eq_filter (h a.id)
      have h' : ∀ i, countId ((removeFirst l a.id).1) i ≤ 1 := by
        intro i
        rw [hrf.1]
        exact Nat.le_trans (countId_filter_le _ l i) (h i)
      have hrec := ih (removeFirst l a.id).1 h'
      have hpred : (fun m => decide (containsId rest m.id = false) &&
          decide (¬ m.id = a.id)) =
          (fun m : Module => decide (containsId (a :: rest) m.id = false)) := by
        funext m
        by_cases hm : a.id = m.id
        · simp [containsId, hm]
        · have hm' : ¬ m.id = a.id := fun hh => hm hh.symm
          simp [containsId, hm, hm']
      simp only [removeList]
      rw [hrec, hrf.1, List.filter_filter, hpred]

theorem length_filter_contains_split (s l : List Module) :
    (l.filter (fun m => containsId s m.id = false)).length +
      (l.filter (fun m => containsId s m.id = true)).length = l.length := by
  induction l with
  | nil => simp
  | cons x xs ih =>
      simp only [List.filter_cons]
      cases hx : containsId s x.id <;> simp [hx] at ih ⊢ <;> omega

/-- C7 (amended): `Remove(otherRegistry)` removes, for each entry of the
other registry in order, the first entry of the receiver with the same
pointer identity; when the receiver contains no duplicate references this
removes exactly the receiver entries present in the other registry, and
the returned count is the number of entries removed.  A duplicated
receiver entry is removed at most once per matching entry of the other
registry. -/
theorem removeList_removes_present (l s : List Module)
    (hnd : l.Pairwise (fun a b => a.id ≠ b.id)) :
    (removeList l s).1 = l.filter (fun m => containsId s m.id = false) ∧
    (removeList l s).2 = (l.filter (fun m => containsId s m.id = true)).length := by
  have h1 := removeList_keep s l (pairwise_countId_le_one hnd)
  have h2 := removeList_length s l
  refine ⟨h1, ?_⟩
  have h3 := length_filter_contains_split s l
  rw [h1] at h2
  omega

/-- Witness for C7: a duplicate-free registry loses exactly the entry
shared with the other registry. -/
theorem removeList_removes_present_witness :
    (removeList [mA, mB] [mA]).1 =
      [mA, mB].filter (fun m => containsId [mA] m.id = false) ∧
    (removeList [mA, mB] [mA]).2 =
      ([mA, mB].filter (fun m => containsId [mA] m.id = true)).length :=
  removeList_removes_present [mA, mB] [mA] (by simp [List.pairwise_cons, mA, mB])

/-- Counterexample for C7 as stated: a receiver holding the same module
twice.  One entry with identity present in the other registry survives,
so not every such entry is removed. -/
theorem removeList_duplicate_cex :
    removeList [mA, mA] [mA] = ([mA], 1) ∧
    (removeList [mA, mA] [mA]).1 ≠ [] := by decide

/-! ### C4 -/

/-- An environment whose filesystem reports modification time 10 for
every path; construction and location are inert. -/
def envStale : Env :=
  { construct := fun _ => ⟨none, none, none, false⟩,
    locate := fun _ => none,
    fsExists := fun _ => false,
    fsModTime := fun _ => some 10 }

/-- A spec with no UUID and path 0. -/
def specStale : ModuleSpec := ⟨none, some 0, none, none⟩

/-- A spec with UUID 7 and no path. -/
def specUuid : ModuleSpec := ⟨some 7, none, none, none⟩

/-- A cached candidate whose recorded modification time 1 differs from the
filesystem's 10 (stale). -/
def cs1 : Module := ⟨1, none, some 0, none, none, some 1, true⟩

/-- A second stale candidate, recorded modification time 2. -/
def cs2 : Module := ⟨2, none, some 0, none, none, some 2, true⟩

/-- A fresh candidate: recorded modification time equals the
filesystem's 10. -/
def csFresh : Module := ⟨3, none, some 0, none, none, some 10, true⟩

/-- C4 (amended): in the initial cache scan of `GetSharedModule`
(always_create false), a spec carrying a valid UUID accepts the first
candidate immediately with the cache unmodified; without a UUID, a valid
spec-path modification time equal to the candidate's returns that
candidate with the cache unmodified; a differing modification time
removes the candidate from the cache and continues the scan, recording
the candidate in the old-module output only when that output is still
empty — a later stale candidate is removed without being recorded. -/
theorem gsm_scan_branches (env : Env) (spec : ModuleSpec) (c : Module)
    (rest cache : List Module) (old : ModuleSP) (p t : Nat) :
    (spec.uuid.isSome = true →
        scanLoop env spec (c :: rest) ⟨cache, old, none⟩ = ⟨cache, old, some c⟩) ∧
    (spec.uuid = none → spec.fileSpec = some p → env.fsModTime p = some t →
        c.modTime = some t →
        scanLoop env spec (c :: rest) ⟨cache, old, none⟩ = ⟨cache, old, some c⟩) ∧
    (spec.uuid = none → spec.fileSpec = some p → env.fsModTime p = some t →
        ¬ c.modTime = some t →
        scanLoop env spec (c :: rest) ⟨cache, none, none⟩ =
          scanLoop env spec rest ⟨(removeFirst cache c.id).1, some c, none⟩) ∧
    (spec.uuid = none → spec.fileSpec = some p → env.fsModTime p = some t →
        ¬ c.modTime = some t → ∀ o : Module,
        scanLoop env spec (c :: rest) ⟨cache, some o, none⟩ =
          scanLoop env spec rest ⟨(removeFirst cache c.id).1, some o, none⟩) := by
  refine ⟨?_, ?_, ?_, ?_⟩
  · intro hu
    simp [scanLoop, hu]
  · intro hu hfs hmt hct
    have hu' : spec.uuid.isSome = false := by simp [hu]
    simp [scanLoop, hu', hfs, hmt, hct]
  · intro hu hfs hmt hct
    have hu' : spec.uuid.isSome = false := by simp [hu]
    simp [scanLoop, hu', hfs, hmt, hct]
  · intro hu hfs hmt hct o
    have hu' : spec.uuid.isSome = false := by simp [hu]
    simp [scanLoop, hu', hfs, hmt, hct]

/-- Witness for C4: the UUID, fresh, first-stale and later-stale branches
at concrete inputs. -/
theorem gsm_scan_branches_witness :
    scanLoop envStale specUuid [cs1] ⟨[], none, none⟩ = ⟨[], none, some cs1⟩ ∧
    scanLoop envStale specStale [csFresh] ⟨[csFresh], none, none⟩ =
      ⟨[csFresh], none, some csFresh⟩ ∧
    scanLoop envStale specStale [cs1] ⟨[cs1], none, none⟩ =
      scanLoop envStale specStale [] ⟨(removeFirst [cs1] cs1.id).1, some cs1, none⟩ ∧
    scanLoop envStale specStale [cs2] ⟨[cs2], some cs1, none⟩ =
      scanLoop envStale specStale [] ⟨(removeFirst [cs2] cs2.id).1, some cs1, none⟩ :=
  ⟨(gsm_scan_branches envStale specUuid cs1 [] [] none 0 0).1 rfl,
   (gsm_scan_branches envStale specStale csFresh [] [csFresh] none 0 10).2.1
      rfl rfl rfl rfl,
   (gsm_scan_branches envStale specStale cs1 [] [cs1] none 0 10).2.2.1
      rfl rfl rfl (by decide),
   (gsm_scan_branches envStale specStale cs2 [] [cs2] none 0 10).2.2.2
      rfl rfl rfl (by decide) cs1⟩

/-- Counterexample for C4 as stated: with two stale candidates, the
second one (cs2, modification time 2 ≠ filesystem's 10) is removed from
the cache but the old-module output still holds the first (cs1), so not
every stale candidate is recorded as the prior instance. -/
theorem gsm_scan_second_stale_cex :
    scanLoop envStale specStale [cs1, cs2] ⟨[cs1, cs2], none, none⟩ =
      ⟨[], some cs1, none⟩ ∧
    (scanLoop envStale specStale [cs1, cs2] ⟨[cs1, cs2], none, none⟩).oldModule ≠
      some cs2 ∧
    ¬ cs2.modTime = some 10 ∧ envStale.fsModTime 0 = some 10 ∧
    specStale.fileSpec = some 0 ∧ specStale.uuid = none := by decide

/-! ### C5 -/

theorem scanLoop_uuid_cons (env : Env) (spec : ModuleSpec)
    (hu : spec.uuid.isSome = true) (c : Module) (rest : List Module)
    (st : ScanState) :
    scanLoop env spec (c :: rest) st = { st with moduleSp := some c } := by
  simp [scanLoop, hu]

theorem findModules_append (l1 l2 : List Module) (spec : ModuleSpec) :
    findModules (l1 ++ l2) spec = findModules l1 spec ++ findModules l2 spec := by
  simp [findModules, List.filter_append]

theorem findModules_fileSpec_irrel (spec : ModuleSpec) (u : Nat)
    (hu : spec.uuid = some u) (l : List Module) (fs1 fs2 : Option Nat) :
    findModules l { spec with fileSpec := fs1, platformFileSpec := fs2 } =
      findModules l spec := by
  simp [findModules, matchesModuleSpec, hu]

theorem gsm_eq_afterScan (env : Env) (cache : List Module) (nid : Nat)
    (spec : ModuleSpec) :
    getSharedModule env cache nid spec false =
      gsmAfterScan env spec nid
        (scanLoop env spec (findModules cache spec) ⟨cache, none, none⟩) := rfl

theorem scanLoop_nil_state (env : Env) (spec : ModuleSpec) (st : ScanState) :
    scanLoop env spec [] st = st := rfl

theorem gsm_cands_cons (env : Env) (cache : List Module) (nid : Nat)
    (spec : ModuleSpec) (c : Module) (cs : List Module)
    (hu : spec.uuid.isSome = true) (hc : findModules cache spec = c :: cs) :
    getSharedModule env cache nid spec false = (⟨some c, none, false, true⟩, cache, nid) := by
  rw [gsm_eq_afterScan env cache nid spec, hc,
    scanLoop_uuid_cons env spec hu c cs ⟨cache, none, none⟩]
  rfl

theorem gsmFallback_uuid_newcache (env : Env) (spec : ModuleSpec)
    (cache : List Module) (old : ModuleSP) (nid : Nat) (u : Nat) (M : Module)
    (hu : spec.uuid = some u) (hc : findModules cache spec = [])
    (hm : (gsmFallback env spec cache old nid).1.module = some M) :
    (gsmFallback env spec cache old nid).2.1 = cache ++ [M] := by
  by_cases h1 : (env.locate spec == spec.fileSpec) = true
  · simp [gsmFallback, h1] at hm
  · by_cases h2 : fsExistsOpt env (env.locate spec) = true
    · have hcands : findModules cache
          { spec with fileSpec := env.locate spec,
                      platformFileSpec := env.locate spec } = [] := by
        rw [findModules_fileSpec_irrel spec u hu cache (env.locate spec) (env.locate spec)]
        exact hc
      by_cases h3 : (newModuleFrom env
          { spec with fileSpec := env.locate spec,
                      platformFileSpec := env.locate spec } nid).hasObjectFile = true
      · simp [gsmFallback, h1, h2, hcands, gsmFallbackCreate, h3] at hm ⊢
        rw [hm]
      · simp [gsmFallback, h1, h2, hcands, gsmFallbackCreate, h3] at hm
    · simp [gsmFallback, h1, h2] at hm

theorem gsm_uuid_noCands_newcache (env : Env) (cache : List Module) (nid : Nat)
    (spec : ModuleSpec) (u : Nat) (M : Module)
    (hu : spec.uuid = some u) (hc : findModules cache spec = [])
    (hm : (getSharedModule env cache nid spec false).1.module = some M) :
    (getSharedModule env cache nid spec false).2.1 = cache ++ [M] := by
  rw [gsm_eq_afterScan env cache nid spec, hc,
    scanLoop_nil_state env spec ⟨cache, none, none⟩] at hm ⊢
  unfold gsmAfterScan at hm ⊢
  dsimp only at hm ⊢
  rw [hu] at hm ⊢
  by_cases h3 : (newModuleFrom env spec nid).hasObjectFile = true
  · rw [if_pos h3] at hm ⊢
    dsimp only at hm ⊢
    by_cases h4 : ((newModuleFrom env spec nid).uuid == some u) = true
    · rw [if_pos h4] at hm ⊢
      simp at hm
      dsimp only
      rw [hm]
    · rw [if_neg h4] at hm ⊢
      exact gsmFallback_uuid_newcache env spec cache none (nid + 1) u M hu hc hm
  · rw [if_neg h3] at hm ⊢
    exact gsmFallback_uuid_newcache env spec cache none (nid + 1) u M hu hc hm

/-- C5 (amended): for a spec carrying a valid UUID, if the first of two
consecutive `GetSharedModule` calls (always_create false) returns a
module that carries that UUID — guaranteed on the cached and
direct-construction paths, but not re-verified on the fallback-location
path — then the second call returns the same Module identity and reports
did-create false. -/
theorem gsm_uuid_consecutive (env : Env) (cache : List Module) (nid : Nat)
    (spec : ModuleSpec) (u : Nat) (M : Module)
    (hu : spec.uuid = some u)
    (h1 : (getSharedModule env cache nid spec false).1.module = some M)
    (hM : M.uuid = some u) :
    (getSharedModule env (getSharedModule env cache nid spec false).2.1
        (getSharedModule env cache nid spec false).2.2 spec false).1.module = some M ∧
    (getSharedModule env (getSharedModule env cache nid spec false).2.1
        (getSharedModule env cache nid spec false).2.2 spec false).1.didCreate = false := by
  have hus : spec.uuid.isSome = true := by simp [hu]
  cases hcand : findModules cache spec with
  | cons c cs =>
      have hfst := gsm_cands_cons env cache nid spec c cs hus hcand
      rw [hfst] at h1
      simp at h1
      rw [hfst]
      dsimp only
      rw [hfst]
      simp [h1]
  | nil =>
      have hnew := gsm_uuid_noCands_newcache env cache nid spec u M hu hcand h1
      have hcand2 : findModules (cache ++ [M]) spec = [M] := by
        rw [findModules_append]
        rw [hcand]
        simp [findModules, matchesModuleSpec, hu, hM]
      have hsnd := gsm_cands_cons env (cache ++ [M])
        ((getSharedModule env cache nid spec false).2.2) spec M [] hus hcand2
      rw [hnew, hsnd]
      exact ⟨rfl, rfl⟩

/-- An environment whose constructor copies the spec's UUID and always
yields an object file. -/
def envUuidOk : Env :=
  { construct := fun s => ⟨s.uuid, none, none, true⟩,
    locate := fun _ => none,
    fsExists := fun _ => false,
    fsModTime := fun _ => none }

/-- The module the first cache-population call creates for `specUuid`
under `envUuidOk`. -/
def mW : Module := ⟨0, some 7, none, none, none, none, true⟩

/-- Witness for C5: a UUID spec resolved twice against an initially empty
cache. -/
theorem gsm_uuid_consecutive_witness :
    (getSharedModule envUuidOk (getSharedModule envUuidOk [] 0 specUuid false).2.1
        (getSharedModule envUuidOk [] 0 specUuid false).2.2 specUuid false).1.module =
      some mW ∧
    (getSharedModule envUuidOk (getSharedModule envUuidOk [] 0 specUuid false).2.1
        (getSharedModule envUuidOk [] 0 specUuid false).2.2 specUuid false).1.didCreate =
      false :=
  gsm_uuid_consecutive envUuidOk [] 0 specUuid 7 mW rfl (by decide) rfl

/-- An environment whose constructor never reproduces the requested UUID:
a module built from path 0 has no object file, one built from the located
path 1 does, and the constructed module's UUID is always absent. -/
def envNoVerify : Env :=
  { construct := fun s => ⟨none, none, none, s.fileSpec == some 1⟩,
    locate := fun _ => some 1,
    fsExists := fun p => p == 1,
    fsModTime := fun _ => none }

/-- A spec with UUID 7 and path 0. -/
def specUuidPath : ModuleSpec := ⟨some 7, some 0, none, none⟩

/-- Counterexample for C5 as stated: under `envNoVerify`, the first call
succeeds through the fallback-location path, whose append does not
re-verify the UUID (lines 740-752); the second consecutive call then
fails to find the cached module by UUID, creates another one, and reports
did-create true with a different Module identity. -/
theorem gsm_fallback_no_uuid_check_cex :
    (getSharedModule envNoVerify [] 0 specUuidPath false).1.module.isSome = true ∧
    (getSharedModule envNoVerify
        (getSharedModule envNoVerify [] 0 specUuidPath false).2.1
        (getSharedModule envNoVerify [] 0 specUuidPath false).2.2
        specUuidPath false).1.didCreate = true ∧
    (getSharedModule envNoVerify
        (getSharedModule envNoVerify [] 0 specUuidPath false).2.1
        (getSharedModule envNoVerify [] 0 specUuidPath false).2.2
        specUuidPath false).1.module ≠
      (getSharedModule envNoVerify [] 0 specUuidPath false).1.module := by decide

/-! ### C8 -/

theorem findTypesGo_len (env : Module → Nat → List Nat) (aff : Option Nat)
    (maxM : Nat) : ∀ (mods : List Module) (types : List Nat) (total : Nat),
    (findTypesGo env aff maxM mods types total).1.length + total =
      types.length + (findTypesGo env aff maxM mods types total).2 := by
  intro mods
  induction mods with
  | nil => intro types total; simp [findTypesGo]
  | cons m rest ih =>
      intro types total
      by_cases hq : (aff.isNone || aff == some m.id) = true
      · by_cases hbr : maxM ≤ total + (env m maxM).length
        · simp only [findTypesGo, hq, if_true, if_pos hbr, List.length_append]
          omega
        · simp only [findTypesGo, hq, if_true, if_neg hbr]
          have h := ih (types ++ env m maxM) (total + (env m maxM).length)
          simp only [List.length_append] at h
          omega
      · by_cases hbr : maxM ≤ total
        · simp only [findTypesGo, hq, Bool.false_eq_true, if_false, if_pos hbr]
        · simp only [findTypesGo, hq, Bool.false_eq_true, if_false, if_neg hbr]
          have h := ih types total
          omega

theorem findTypesGo_max_zero (env : Module → Nat → List Nat) (aff : Option Nat)
    (hc0 : ∀ m, env m 0 = []) :
    ∀ (mods : List Module) (types : List Nat),
    findTypesGo env aff 0 mods types 0 = (types, 0) := by
  intro mods types
  cases mods with
  | nil => rfl
  | cons m rest => simp [findTypesGo, hc0 m]

theorem findTypesGo_affinity (env : Module → Nat → List Nat) (a maxM : Nat) :
    ∀ (mods : List Module) (types : List Nat) (total : Nat), total < maxM →
    findTypesGo env (some a) maxM mods types total =
      findTypesGo env (some a) maxM (mods.filter (fun m => m.id = a)) types total := by
  intro mods
  induction mods with
  | nil => intro types total _; rfl
  | cons m rest ih =>
      intro types total hlt
      by_cases hm : m.id = a
      · have hq : ((some a).isNone || some a == some m.id) = true := by
          simp [hm]
        have hf : (m :: rest).filter (fun m => m.id = a) =
            m :: rest.filter (fun m => m.id = a) := by
          simp [List.filter_cons, hm]
        rw [hf]
        by_cases hbr : maxM ≤ total + (env m maxM).length
        · simp only [findTypesGo, hq, if_true, if_pos hbr]
        · simp only [findTypesGo, hq, if_true, if_neg hbr]
          exact ih (types ++ env m maxM) (total + (env m maxM).length) (by omega)
      · have hq : ((some a).isNone || some a == some m.id) = false := by
          have hma : ¬ a = m.id := fun h => hm h.symm
          simp [hma]
        have hf : (m :: rest).filter (fun m => m.id = a) =
            rest.filter (fun m => m.id = a) := by
          simp [List.filter_cons, hm]
        rw [hf]
        have hbr : ¬ maxM ≤ total := by omega
        simp only [findTypesGo, hq, Bool.false_eq_true, if_false, if_neg hbr]
        exact ih types total hlt

theorem findTypesGo_extend (env : Module → Nat → List Nat) (aff : Option Nat)
    (maxM : Nat) (extra : List Module) :
    ∀ (mods : List Module) (types : List Nat) (total : Nat), total < maxM →
    maxM ≤ (findTypesGo env aff maxM mods types total).2 →
    findTypesGo env aff maxM (mods ++ extra) types total =
      findTypesGo env aff maxM mods types total := by
  intro mods
  induction mods with
  | nil =>
      intro types total hlt hge
      simp [findTypesGo] at hge
      omega
  | cons m rest ih =>
      intro types total hlt hge
      rw [List.cons_append]
      by_cases hq : (aff.isNone || aff == some m.id) = true
      · by_cases hbr : maxM ≤ total + (env m maxM).length
        · simp only [findTypesGo, hq, if_true, if_pos hbr]
        · simp only [findTypesGo, hq, if_true, if_neg hbr] at hge ⊢
          exact ih (types ++ env m maxM) (total + (env m maxM).length) (by omega) hge
      · have hbr : ¬ maxM ≤ total := by omega
        simp only [findTypesGo, hq, Bool.false_eq_true, if_false, if_neg hbr] at hge ⊢
        exact ih types total hlt hge

/-- C8: `FindTypes` returns the number of matches accumulated by this
call (the growth of the type list over its post-clear contents); when the
query carries a module affinity, the scan is equivalent to scanning only
the modules with that identity; and once the running total has reached
maxMatches the remaining modules are never scanned (appending further
modules cannot change the outcome), assuming each module honours the
per-module maxMatches bound it is given. -/
theorem findTypes_spec (env : Module → Nat → List Nat) (aff : Option Nat)
    (a maxM : Nat) (mods : List Module) (ap : Bool) (types : List Nat)
    (extra : List Module) (hc : ∀ m, (env m maxM).length ≤ maxM) :
    (findTypes env aff maxM mods ap types).1.length =
      (if ap then types else []).length + (findTypes env aff maxM mods ap types).2 ∧
    findTypes env (some a) maxM mods ap types =
      findTypes env (some a) maxM (mods.filter (fun m => m.id = a)) ap types ∧
    (maxM ≤ (findTypes env aff maxM mods ap types).2 →
      findTypes env aff maxM (mods ++ extra) ap types =
        findTypes env aff maxM mods ap types) := by
  refine ⟨?_, ?_, ?_⟩
  · have h := findTypesGo_len env aff maxM mods (if ap then types else []) 0
    unfold findTypes
    omega
  · unfold findTypes
    rcases Nat.eq_zero_or_pos maxM with h0 | hpos
    · subst h0
      have hc0 : ∀ m, env m 0 = [] := fun m =>
        List.eq_nil_of_length_eq_zero (Nat.le_zero.mp (hc m))
      rw [findTypesGo_max_zero env (some a) hc0 mods (if ap then types else []),
        findTypesGo_max_zero env (some a) hc0 (mods.filter (fun m => m.id = a))
          (if ap then types else [])]
    · exact findTypesGo_affinity env a maxM mods (if ap then types else []) 0 hpos
  · intro hreach
    unfold findTypes at hreach ⊢
    rcases Nat.eq_zero_or_pos maxM with h0 | hpos
    · subst h0
      have hc0 : ∀ m, env m 0 = [] := fun m =>
        List.eq_nil_of_length_eq_zero (Nat.le_zero.mp (hc m))
      rw [findTypesGo_max_zero env aff hc0 (mods ++ extra) (if ap then types else []),
        findTypesGo_max_zero env aff hc0 mods (if ap then types else [])]
    · exact findTypesGo_extend env aff maxM extra mods (if ap then types else []) 0
        hpos hreach

/-- The per-module type-search collaborator used in the C8 witness:
every module reports exactly one match. -/
def envTypes : Module → Nat → List Nat := fun m _ => [m.id]

/-- Witness for C8: two modules, maxMatches 1 — the scan saturates at the
first module, affinity restricts to the matching module, and the returned
count is the list growth. -/
theorem findTypes_spec_witness :
    (findTypes envTypes none 1 [mA, mB] true []).1.length =
      (if true then ([] : List Nat) else []).length +
        (findTypes envTypes none 1 [mA, mB] true []).2 ∧
    findTypes envTypes (some 5) 1 [mA, mB] true [] =
      findTypes envTypes (some 5) 1 ([mA, mB].filter (fun m => m.id = 5)) true [] ∧
    findTypes envTypes none 1 ([mA, mB] ++ [mB]) true [] =
      findTypes envTypes none 1 [mA, mB] true [] :=
  have h := findTypes_spec envTypes none 5 1 [mA, mB] true [] [mB]
    (fun m => by simp [envTypes])
  ⟨h.1, h.2.1, h.2.2 (by decide)⟩

end ModuleListSpec
